import Mathlib

/-!
Shallow embedding of the playstore publish tool (package `playstore`,
files `publish.go` and `util.go`) and proofs about its validation and
upload-orchestration logic.

Modelling conventions:
- File contents are byte lists (`List Nat`, each element a byte value);
  the injected file system `afero.Fs` is modelled as a map from path to
  optional contents (`Fs`); `Stat` succeeds exactly when the map is
  defined, `Open` yields the contents.
- The remote service interface `IGService` is modelled as a record of
  pure response functions (`GService`).  A call made to the service is
  recorded in an explicit trace (`List Call`); side-effecting Go code
  thus becomes a function returning `result x trace`.
- Errors are the exact `fmt.Errorf` format strings of the source
  (`\x27` is the ASCII apostrophe used by the source's quoting).
- Machine integers: version codes (`int64`) are `Int`; SHA-256 works on
  `Nat` with explicit reduction `% 2^32` (`w32`).
-/

/-! ## SHA-256 (crypto/sha256 + encoding/hex), used by `fileSha256` in util.go -/

/-- Reduction modulo 2^32; every 32-bit intermediate of SHA-256 is kept below 2^32. -/
def w32 (x : Nat) : Nat := x % 4294967296

/-- Rotate a 32-bit word right by `n` bit positions. -/
def rotr (n x : Nat) : Nat := w32 ((x >>> n) ||| (x <<< (32 - n)))

/-- SHA-256 round constants. -/
def sha256K : List Nat :=
  [1116352408, 1899447441, 3049323471, 3921009573, 961987163, 1508970993,
   2453635748, 2870763221, 3624381080, 310598401, 607225278, 1426881987,
   1925078388, 2162078206, 2614888103, 3248222580, 3835390401, 4022224774,
   264347078, 604807628, 770255983, 1249150122, 1555081692, 1996064986,
   2554220882, 2821834349, 2952996808, 3210313671, 3336571891, 3584528711,
   113926993, 338241895, 666307205, 773529912, 1294757372, 1396182291,
   1695183700, 1986661051, 2177026350, 2456956037, 2730485921, 2820302411,
   3259730800, 3345764771, 3516065817, 3600352804, 4094571909, 275423344,
   430227734, 506948616, 659060556, 883997877, 958139571, 1322822218,
   1537002063, 1747873779, 1955562222, 2024104815, 2227730452, 2361852424,
   2428436474, 2756734187, 3204031479, 3329325298]

/-- SHA-256 initial hash state. -/
def sha256Init : List Nat :=
  [1779033703, 3144134277, 1013904242, 2773480762,
   1359893119, 2600822924, 528734635, 1541459225]

/-- Big-endian 8-byte encoding of the bit length appended by SHA-256 padding. -/
def be64 (n : Nat) : List Nat :=
  [(n >>> 56) % 256, (n >>> 48) % 256, (n >>> 40) % 256, (n >>> 32) % 256,
   (n >>> 24) % 256, (n >>> 16) % 256, (n >>> 8) % 256, n % 256]

/-- SHA-256 padding: append 0x80, zeros to 56 mod 64, then the 64-bit bit length. -/
def padMessage (msg : List Nat) : List Nat :=
  let len := msg.length
  let z := (119 - len % 64) % 64
  msg ++ [0x80] ++ List.replicate z 0 ++ be64 (8 * len)

/-- Group bytes into big-endian 32-bit words. -/
def toWords : List Nat → List Nat
  | a :: b :: c :: d :: rest => (a * 16777216 + b * 65536 + c * 256 + d) :: toWords rest
  | _ => []

/-- Extend the 16-word message schedule to 64 words (`fuel` counts remaining extensions). -/
def extendW (fuel : Nat) (w : List Nat) : List Nat :=
  match fuel with
  | 0 => w
  | f + 1 =>
    let i := w.length
    let x15 := w.getD (i - 15) 0
    let x2 := w.getD (i - 2) 0
    let s0 := rotr 7 x15 ^^^ rotr 18 x15 ^^^ (x15 >>> 3)
    let s1 := rotr 17 x2 ^^^ rotr 19 x2 ^^^ (x2 >>> 10)
    extendW f (w ++ [w32 (w.getD (i - 16) 0 + s0 + w.getD (i - 7) 0 + s1)])

/-- One SHA-256 compression round on the 8-word working state. -/
def round1 (ki wi : Nat) (st : List Nat) : List Nat :=
  match st with
  | [a, b, c, d, e, f, g, h] =>
    let s1 := rotr 6 e ^^^ rotr 11 e ^^^ rotr 25 e
    let ch := (e &&& f) ^^^ ((e ^^^ 4294967295) &&& g)
    let t1 := w32 (h + s1 + ch + ki + wi)
    let s0 := rotr 2 a ^^^ rotr 13 a ^^^ rotr 22 a
    let mj := (a &&& b) ^^^ (a &&& c) ^^^ (b &&& c)
    let t2 := w32 (s0 + mj)
    [w32 (t1 + t2), a, b, c, w32 (d + t1), e, f, g]
  | other => other

/-- Iterate `round1` over the message schedule. -/
def rounds (fuel i : Nat) (w st : List Nat) : List Nat :=
  match fuel with
  | 0 => st
  | f + 1 => rounds f (i + 1) w (round1 (sha256K.getD i 0) (w.getD i 0) st)

/-- Compress one 64-byte block into the running hash state. -/
def compress (h : List Nat) (block : List Nat) : List Nat :=
  let w := extendW 48 (toWords block)
  let st := rounds 64 0 w h
  List.zipWith (fun x y => w32 (x + y)) h st

/-- Fold `compress` over consecutive 64-byte blocks (`fuel` bounds the recursion). -/
def sha256Blocks (fuel : Nat) (h : List Nat) (l : List Nat) : List Nat :=
  match fuel with
  | 0 => h
  | f + 1 =>
    match l with
    | [] => h
    | _ => sha256Blocks f (compress h (l.take 64)) (l.drop 64)

/-- Serialize the final 8-word state into 32 big-endian digest bytes. -/
def wordsToBytes : List Nat → List Nat
  | [] => []
  | w :: rest =>
    (w >>> 24) % 256 :: (w >>> 16) % 256 :: (w >>> 8) % 256 :: w % 256 :: wordsToBytes rest

/-- SHA-256 digest (32 bytes) of a byte list. -/
def sha256 (msg : List Nat) : List Nat :=
  let padded := padMessage msg
  wordsToBytes (sha256Blocks padded.length sha256Init padded)

/-- Lowercase hex digit, as in Go's `encoding/hex` table "0123456789abcdef". -/
def hexChar (d : Nat) : Char := if d < 10 then Char.ofNat (48 + d) else Char.ofNat (87 + d)

/-- Lowercase hex encoding of a byte list (two digits per byte, high nibble first). -/
def hexEncodeList : List Nat → List Char
  | [] => []
  | b :: rest => hexChar (b / 16) :: hexChar (b % 16) :: hexEncodeList rest

/-- util.go `fileSha256`: SHA-256 of the full content, hex encoded.  The Go
function consumes the reader and then seeks back to the start; here the
content is an immutable byte list, so the seek is implicit: callers keep
using the same full content (see `upload`).  Hashing in-memory bytes
cannot fail, so the `error` result of the Go version is dropped. -/
def fileSha256 (bs : List Nat) : String := String.mk (hexEncodeList (sha256 bs))

/-- Bytes of a string; coincides with the UTF-8 bytes for the ASCII
strings used by the source and its tests. -/
def stringBytes (s : String) : List Nat := s.data.map Char.toNat

/-! ## strings.ToLower / strings.TrimSpace as used by Publish -/

/-- strings.ToLower, modelled on code points (ASCII case mapping, which
covers the track names the validator compares against). -/
def goToLower (s : String) : String := String.mk (s.data.map Char.toLower)

/-- strings.TrimSpace, modelled with `Char.isWhitespace` (ASCII whitespace,
which covers the whitespace handling the validator relies on). -/
def goTrimSpace (s : String) : String :=
  String.mk (((s.data.dropWhile Char.isWhitespace).reverse.dropWhile Char.isWhitespace).reverse)

/-- The normalization publish.go applies to the requested track:
`strings.TrimSpace(strings.ToLower(track))`. -/
def normTrack (track : String) : String := goTrimSpace (goToLower track)

/-- Substring test (used only to state that an error message does or does
not mention some text). -/
def tails : List Char → List (List Char)
  | [] => [[]]
  | c :: rest => (c :: rest) :: tails rest

/-- String `sub` occurs somewhere inside `s`. -/
def strContains (s sub : String) : Bool :=
  (tails s.data).any (fun t => List.isPrefixOf sub.data t)

/-! ## Data model: file system, binaries, publish -/

/-- afero.Fs, reduced to what the core uses: path to byte contents.
`Stat` succeeds exactly on defined paths, `Open` yields the contents. -/
structure Fs where
  contents : String → Option (List Nat)

/-- Track name constants of the source. -/
def TrackInternal : String := "internal"

/-- Track name constant `alpha`. -/
def TrackAlpha : String := "alpha"

/-- Track name constant `beta`. -/
def TrackBeta : String := "beta"

/-- Track name constant `production` (never accepted by the validator). -/
def TrackProduction : String := "production"

/-- publish.go `binary`: an aab/apk file path and its optional mappings path. -/
structure binary where
  filePath : String
  mappingPath : String
deriving DecidableEq

/-- publish.go `Binary`: a binary with no mapping. -/
def Binary (path : String) : binary :=
  { filePath := path, mappingPath := "" }

/-- publish.go `BinaryWithMapping`. -/
def BinaryWithMapping (path mappingPath : String) : binary :=
  { filePath := path, mappingPath := mappingPath }

/-- publish.go `publish`: the validated request. -/
structure publish where
  packageName : String
  track : String
  authFile : String
  files : List binary
  apk : Bool
  verbose : Bool
  fs : Fs

/-- util.go `fileExits` (sic): Stat succeeds. -/
def fileExits (fs : Fs) (file : String) : Bool := (fs.contents file).isSome

/-! ## Error messages (exact fmt.Errorf strings of the source) -/

/-- Error for a missing authentication file. -/
def authMsg (authFile : String) : String :=
  "authentication file \x27" ++ authFile ++ "\x27 does not exist"

/-- Error for an empty package name. -/
def pkgMsg : String := "package name must not be empty"

/-- Error for an empty (after normalization) track. -/
def trackReqMsg : String := "track name to publish binary to is required"

/-- Error for an unsupported track; names the rejected value and the allowed set. -/
def trackMsg (t : String) : String :=
  "provided track type \x27" ++ t ++ "\x27 not supported. Only supported types are \x27" ++
    TrackBeta ++ "\x27 \x27" ++ TrackAlpha ++ "\x27 \x27" ++ TrackInternal ++ "\x27"

/-- Error for an empty binaries list. -/
def noFilesMsg : String := "no files to upload provided"

/-- Error for a missing binary file, naming the missing path. -/
def binMsg (path : String) : String :=
  "binary file \x27" ++ path ++ "\x27 does not exist"

/-- Error for a missing mappings file, naming the missing path. -/
def mapMsg (path : String) : String :=
  "mappings file \x27" ++ path ++ "\x27 does not exist"

/-- Error for a nil service handle. -/
def noServiceMsg : String := "no Google Playstore service instance provided"

/-- Error for a file the injected file system cannot open (afero style). -/
def openMsg (path : String) : String := "open " ++ path ++ ": file does not exist"

/-- Integrity-verification failure, carrying the local and the remote hash. -/
def integrityMsg (lhash rhash : String) : String :=
  "failed integrity verification with local file hash \x27" ++ lhash ++
    "\x27 and remote \x27" ++ rhash ++ "\x27"

/-! ## Request validation: publish.go `Publish` -/

/-- The per-file existence loop at the end of `Publish`: first missing
binary or missing specified mapping yields its error, in list order. -/
def checkFiles (fs : Fs) : List binary → Option String
  | [] => none
  | f :: rest =>
    if !(fileExits fs f.filePath) then some (binMsg f.filePath)
    else if f.mappingPath ≠ "" ∧ !(fileExits fs f.mappingPath) then some (mapMsg f.mappingPath)
    else checkFiles fs rest

/-- publish.go `Publish`: validates the configuration and builds the
immutable `publish` value.  Checks run in source order: auth file, package
name, track (normalized), non-empty file list, per-file existence. -/
def Publish (fs : Fs) (packageName track authFile : String) (files : List binary)
    (apk verbose : Bool) : Except String publish :=
  if !(fileExits fs authFile) then Except.error (authMsg authFile)
  else
    let name := goTrimSpace packageName
    if name = "" then Except.error pkgMsg
    else
      let t := normTrack track
      if t = "" then Except.error trackReqMsg
      else if t ≠ TrackBeta ∧ t ≠ TrackAlpha ∧ t ≠ TrackInternal then
        Except.error (trackMsg t)
      else if files.isEmpty then Except.error noFilesMsg
      else
        match checkFiles fs files with
        | some e => Except.error e
        | none =>
          Except.ok { packageName := name, track := t, authFile := authFile,
                      files := files, apk := apk, verbose := verbose, fs := fs }

/-! ## Remote service (IGService) and the call trace -/

/-- IGService, as the orchestration uses it: pure response functions.
Upload operations receive the transmitted bytes (the Go versions receive
a reader positioned at the start of the file). -/
structure GService where
  createEdit : String → Except String String
  validateEdit : String → String → Except String Unit
  deleteEdit : String → String → Except String Unit
  commitEdit : String → String → Except String Unit
  uploadBundle : List Nat → String → String → Except String (Int × String)
  uploadApk : List Nat → String → String → Except String (Int × String)
  uploadProguardMapping : List Nat → String → String → Int → Except String Unit

/-- One observed call to the remote service.  Upload calls record the
transmitted bytes; the mapping call records the version code passed. -/
inductive Call where
  | createEdit (pkg : String)
  | validateEdit (pkg editId : String)
  | deleteEdit (pkg editId : String)
  | commitEdit (pkg editId : String)
  | uploadBundle (pkg editId : String) (bytes : List Nat)
  | uploadApk (pkg editId : String) (bytes : List Nat)
  | uploadProguardMapping (pkg editId : String) (appVersionCode : Int)
deriving DecidableEq

/-- publish.go `upload`: open, hash (fileSha256 leaves the stream back at
the start, so the very bytes hashed are the bytes transmitted), dispatch
to uploadApk/uploadBundle, then verify the remote hash against the local
one by string equality.  Returns the version code on success, paired with
the trace of service calls made. -/
def upload (p : publish) (us : GService) (filePath editId : String) (isApk : Bool) :
    Except String Int × List Call :=
  match p.fs.contents filePath with
  | none => (Except.error (openMsg filePath), [])
  | some content =>
    let hash := fileSha256 content
    let uplRes :=
      if isApk then us.uploadApk content p.packageName editId
      else us.uploadBundle content p.packageName editId
    let call :=
      if isApk then Call.uploadApk p.packageName editId content
      else Call.uploadBundle p.packageName editId content
    match uplRes with
    | Except.error e => (Except.error e, [call])
    | Except.ok (v, sha) =>
      if sha ≠ hash then (Except.error (integrityMsg hash sha), [call])
      else (Except.ok v, [call])

/-- publish.go `uploadMapping`: open the mappings file and upload it with
the version code of the binary it belongs to. -/
def uploadMapping (p : publish) (us : GService) (filePath editId : String)
    (appVersionCode : Int) : Except String Unit × List Call :=
  match p.fs.contents filePath with
  | none => (Except.error (openMsg filePath), [])
  | some content =>
    match us.uploadProguardMapping content p.packageName editId appVersionCode with
    | Except.error e =>
      (Except.error e, [Call.uploadProguardMapping p.packageName editId appVersionCode])
    | Except.ok _ =>
      (Except.ok (), [Call.uploadProguardMapping p.packageName editId appVersionCode])

/-- The per-file loop of `UploadFiles`.  On any failure the loop calls
`deleteEdit` (its returned value is discarded by the source) and returns
the original error.  An empty mapping path skips the mapping upload. -/
def uploadLoop (p : publish) (gs : GService) (editId : String) :
    List binary → Except String Unit × List Call
  | [] => (Except.ok (), [])
  | f :: rest =>
    let u := upload p gs f.filePath editId p.apk
    match u.1 with
    | Except.error e => (Except.error e, u.2 ++ [Call.deleteEdit p.packageName editId])
    | Except.ok v =>
      if f.mappingPath = "" then
        let r := uploadLoop p gs editId rest
        (r.1, u.2 ++ r.2)
      else
        let m := uploadMapping p gs f.mappingPath editId v
        match m.1 with
        | Except.error e =>
          (Except.error e, u.2 ++ m.2 ++ [Call.deleteEdit p.packageName editId])
        | Except.ok _ =>
          let r := uploadLoop p gs editId rest
          (r.1, u.2 ++ m.2 ++ r.2)

/-- publish.go `UploadFiles`: nil-service check, createEdit, per-file
upload loop, validateEdit, commitEdit; any failure after edit creation
triggers one `deleteEdit` whose own outcome is discarded.  The version
list the source accumulates is never read afterwards and is omitted. -/
def UploadFiles (p : publish) (gso : Option GService) : Except String Unit × List Call :=
  match gso with
  | none => (Except.error noServiceMsg, [])
  | some gs =>
    match gs.createEdit p.packageName with
    | Except.error e => (Except.error e, [Call.createEdit p.packageName])
    | Except.ok editId =>
      let lp := uploadLoop p gs editId p.files
      match lp.1 with
      | Except.error e => (Except.error e, Call.createEdit p.packageName :: lp.2)
      | Except.ok _ =>
        match gs.validateEdit p.packageName editId with
        | Except.error e =>
          (Except.error e,
            Call.createEdit p.packageName :: lp.2 ++
              [Call.validateEdit p.packageName editId, Call.deleteEdit p.packageName editId])
        | Except.ok _ =>
          match gs.commitEdit p.packageName editId with
          | Except.error e =>
            (Except.error e,
              Call.createEdit p.packageName :: lp.2 ++
                [Call.validateEdit p.packageName editId, Call.commitEdit p.packageName editId,
                 Call.deleteEdit p.packageName editId])
          | Except.ok _ =>
            (Except.ok (),
              Call.createEdit p.packageName :: lp.2 ++
                [Call.validateEdit p.packageName editId, Call.commitEdit p.packageName editId])

/-! ## Trace observations -/

/-- The call is a `deleteEdit`. -/
def isDeleteCall : Call → Bool
  | Call.deleteEdit _ _ => true
  | _ => false

/-- The call is a `createEdit`. -/
def isCreateCall : Call → Bool
  | Call.createEdit _ => true
  | _ => false

/-- The call is a `validateEdit`. -/
def isValidateCall : Call → Bool
  | Call.validateEdit _ _ => true
  | _ => false

/-- The call is a `commitEdit`. -/
def isCommitCall : Call → Bool
  | Call.commitEdit _ _ => true
  | _ => false

/-- The call is one of the upload operations (not an edit-lifecycle call). -/
def isUploadCall : Call → Bool
  | Call.uploadBundle _ _ _ => true
  | Call.uploadApk _ _ _ => true
  | Call.uploadProguardMapping _ _ _ => true
  | _ => false

/-- Number of `deleteEdit` calls in a trace. -/
def delCount (tr : List Call) : Nat := tr.countP isDeleteCall

/-- Number of `createEdit` calls in a trace. -/
def createCount (tr : List Call) : Nat := tr.countP isCreateCall

/-- Number of `validateEdit` calls in a trace. -/
def validateCount (tr : List Call) : Nat := tr.countP isValidateCall

/-- Number of `commitEdit` calls in a trace. -/
def commitCount (tr : List Call) : Nat := tr.countP isCommitCall

/-- All hypotheses needed for one binary entry to go through the loop
without failure: the binary opens, the dispatched upload returns the
matching hash, and, when a mapping is specified, it opens and uploads. -/
def entryOk (p : publish) (gs : GService) (editId : String) (f : binary) : Prop :=
  ∃ content, p.fs.contents f.filePath = some content ∧
    ∃ v, (if p.apk then gs.uploadApk else gs.uploadBundle) content p.packageName editId =
        Except.ok (v, fileSha256 content) ∧
      (f.mappingPath ≠ "" → ∃ mc, p.fs.contents f.mappingPath = some mc ∧
        gs.uploadProguardMapping mc p.packageName editId v = Except.ok ())

/-! ## Concrete fixtures used to instantiate the theorems -/

/-- A small in-memory file system: an auth file, one binary, one mapping. -/
def wFs : Fs :=
  ⟨fun s =>
    if s = "auth.json" then some [97]
    else if s = "app.aab" then some [10, 20, 30]
    else if s = "map.txt" then some [40, 50]
    else none⟩

/-- A validated request for one binary without mapping. -/
def wPub : publish :=
  { packageName := "com.sample.app", track := "internal", authFile := "auth.json",
    files := [Binary "app.aab"], apk := false, verbose := false, fs := wFs }

/-- A validated request for one binary with a mapping. -/
def wPubMap : publish :=
  { packageName := "com.sample.app", track := "internal", authFile := "auth.json",
    files := [BinaryWithMapping "app.aab" "map.txt"], apk := false, verbose := false, fs := wFs }

/-- A request whose binary file is absent from the file system. -/
def wPubGhost : publish :=
  { packageName := "com.sample.app", track := "internal", authFile := "auth.json",
    files := [Binary "ghost.aab"], apk := false, verbose := false, fs := wFs }

/-- A service on which every operation succeeds and the reported remote
hash always matches the transmitted bytes. -/
def wGs : GService :=
  { createEdit := fun _ => Except.ok "edit1",
    validateEdit := fun _ _ => Except.ok (),
    deleteEdit := fun _ _ => Except.ok (),
    commitEdit := fun _ _ => Except.ok (),
    uploadBundle := fun c _ _ => Except.ok (7, fileSha256 c),
    uploadApk := fun c _ _ => Except.ok (7, fileSha256 c),
    uploadProguardMapping := fun _ _ _ _ => Except.ok () }

/-- A service whose edit creation fails. -/
def wGsCreateFail : GService :=
  { wGs with createEdit := fun _ => Except.error "create failed" }

/-! ## Helper lemmas about traces -/

theorem upload_calls (p : publish) (gs : GService) (fp ed : String) (b : Bool) :
    ∀ c ∈ (upload p gs fp ed b).2, isUploadCall c = true := by
  intro c hc
  unfold upload at hc
  rcases h : p.fs.contents fp with _ | content <;> rw [h] at hc
  · simp at hc
  · cases b <;>
      simp only [Bool.false_eq_true, if_false, if_true] at hc <;>
      [rcases hu : gs.uploadBundle content p.packageName ed with e | ⟨v, sha⟩;
       rcases hu : gs.uploadApk content p.packageName ed with e | ⟨v, sha⟩] <;>
      rw [hu] at hc <;>
      first
        | (simp at hc; subst hc; rfl)
        | (by_cases hs : sha ≠ fileSha256 content <;>
            simp [hs] at hc <;> subst hc <;> rfl)

theorem uploadMapping_calls (p : publish) (gs : GService) (fp ed : String) (v : Int) :
    ∀ c ∈ (uploadMapping p gs fp ed v).2, isUploadCall c = true := by
  intro c hc
  unfold uploadMapping at hc
  rcases h : p.fs.contents fp with _ | content <;> rw [h] at hc
  · simp at hc
  · rcases hu : gs.uploadProguardMapping content p.packageName ed v with e | u <;>
      simp [hu] at hc <;> subst hc <;> rfl

theorem lifecycle_false_of_isUpload {c : Call} (h : isUploadCall c = true) :
    isDeleteCall c = false ∧ isCreateCall c = false ∧
      isValidateCall c = false ∧ isCommitCall c = false := by
  cases c <;> simp_all [isUploadCall, isDeleteCall, isCreateCall, isValidateCall, isCommitCall]

theorem counts_zero_of_uploads {tr : List Call} (h : ∀ c ∈ tr, isUploadCall c = true) :
    delCount tr = 0 ∧ createCount tr = 0 ∧ validateCount tr = 0 ∧ commitCount tr = 0 := by
  unfold delCount createCount validateCount commitCount
  refine ⟨?_, ?_, ?_, ?_⟩ <;> rw [List.countP_eq_zero] <;> intro c hc <;>
    have h4 := lifecycle_false_of_isUpload (h c hc) <;> simp_all

theorem uploadLoop_nil (p : publish) (gs : GService) (ed : String) :
    uploadLoop p gs ed [] = (Except.ok (), []) := rfl

theorem uploadLoop_cons (p : publish) (gs : GService) (ed : String) (f : binary)
    (rest : List binary) :
    uploadLoop p gs ed (f :: rest) =
      match (upload p gs f.filePath ed p.apk).1 with
      | Except.error e =>
        (Except.error e, (upload p gs f.filePath ed p.apk).2 ++ [Call.deleteEdit p.packageName ed])
      | Except.ok v =>
        if f.mappingPath = "" then
          ((uploadLoop p gs ed rest).1,
            (upload p gs f.filePath ed p.apk).2 ++ (uploadLoop p gs ed rest).2)
        else
          match (uploadMapping p gs f.mappingPath ed v).1 with
          | Except.error e =>
            (Except.error e,
              (upload p gs f.filePath ed p.apk).2 ++ (uploadMapping p gs f.mappingPath ed v).2 ++
                [Call.deleteEdit p.packageName ed])
          | Except.ok _ =>
            ((uploadLoop p gs ed rest).1,
              (upload p gs f.filePath ed p.apk).2 ++ (uploadMapping p gs f.mappingPath ed v).2 ++
                (uploadLoop p gs ed rest).2) := rfl

theorem upload_delfree (p : publish) (gs : GService) (d : String → String → Except String Unit)
    (fp ed : String) (b : Bool) :
    upload p { gs with deleteEdit := d } fp ed b = upload p gs fp ed b := rfl

theorem uploadMapping_delfree (p : publish) (gs : GService)
    (d : String → String → Except String Unit) (fp ed : String) (v : Int) :
    uploadMapping p { gs with deleteEdit := d } fp ed v = uploadMapping p gs fp ed v := rfl

theorem uploadLoop_delfree (p : publish) (gs : GService)
    (d : String → String → Except String Unit) (ed : String) :
    ∀ l, uploadLoop p { gs with deleteEdit := d } ed l = uploadLoop p gs ed l := by
  intro l
  induction l with
  | nil => rfl
  | cons f rest ih =>
    rw [uploadLoop_cons, uploadLoop_cons]
    simp only [upload_delfree, uploadMapping_delfree, ih]

theorem UploadFiles_delfree (p : publish) (gs : GService)
    (d : String → String → Except String Unit) :
    UploadFiles p (some { gs with deleteEdit := d }) = UploadFiles p (some gs) := by
  unfold UploadFiles
  simp only [uploadLoop_delfree]

theorem uploadLoop_split (p : publish) (gs : GService) (ed : String) :
    ∀ l : List binary,
      ((∃ u, (uploadLoop p gs ed l).1 = Except.ok u) →
        ∀ c ∈ (uploadLoop p gs ed l).2, isUploadCall c = true) ∧
      (∀ e, (uploadLoop p gs ed l).1 = Except.error e →
        ∃ tr, (uploadLoop p gs ed l).2 = tr ++ [Call.deleteEdit p.packageName ed] ∧
          ∀ c ∈ tr, isUploadCall c = true) := by
  intro l
  induction l with
  | nil =>
    refine ⟨fun _ c hc => ?_, fun e he => ?_⟩
    · simp [uploadLoop_nil] at hc
    · simp [uploadLoop_nil] at he
  | cons f rest ih =>
    rcases hu : (upload p gs f.filePath ed p.apk).1 with e0 | v
    · refine ⟨fun hok c hc => ?_, fun e he => ?_⟩
      · rcases hok with ⟨u, hok⟩
        rw [uploadLoop_cons] at hok
        simp [hu] at hok
      · rw [uploadLoop_cons]
        simp only [hu]
        exact ⟨(upload p gs f.filePath ed p.apk).2, rfl, upload_calls p gs f.filePath ed p.apk⟩
    · by_cases hm : f.mappingPath = ""
      · refine ⟨fun hok c hc => ?_, fun e he => ?_⟩
        · rw [uploadLoop_cons] at hc
          simp only [hu, hm, if_true] at hc
          rcases List.mem_append.1 hc with h1 | h2
          · exact upload_calls p gs f.filePath ed p.apk c h1
          · rcases hok with ⟨u, hok⟩
            rw [uploadLoop_cons] at hok
            simp only [hu, hm, if_true] at hok
            exact ih.1 ⟨u, hok⟩ c h2
        · rw [uploadLoop_cons] at he ⊢
          simp only [hu, hm, if_true] at he ⊢
          rcases ih.2 e he with ⟨tr, htr, hcalls⟩
          refine ⟨(upload p gs f.filePath ed p.apk).2 ++ tr, ?_, ?_⟩
          · rw [htr, List.append_assoc]
          · intro c hc
            rcases List.mem_append.1 hc with h1 | h2
            · exact upload_calls p gs f.filePath ed p.apk c h1
            · exact hcalls c h2
      · rcases hmp : (uploadMapping p gs f.mappingPath ed v).1 with e1 | u1
        · refine ⟨fun hok c hc => ?_, fun e he => ?_⟩
          · rcases hok with ⟨u, hok⟩
            rw [uploadLoop_cons] at hok
            simp [hu, hm, hmp] at hok
          · rw [uploadLoop_cons]
            simp only [hu, hmp, if_neg hm]
            refine ⟨(upload p gs f.filePath ed p.apk).2 ++ (uploadMapping p gs f.mappingPath ed v).2,
              rfl, ?_⟩
            intro c hc
            rcases List.mem_append.1 hc with h1 | h2
            · exact upload_calls p gs f.filePath ed p.apk c h1
            · exact uploadMapping_calls p gs f.mappingPath ed v c h2
        · refine ⟨fun hok c hc => ?_, fun e he => ?_⟩
          · rw [uploadLoop_cons] at hc
            simp only [hu, hmp, if_neg hm] at hc
            rcases List.mem_append.1 hc with h1 | h2
            · rcases List.mem_append.1 h1 with h3 | h4
              · exact upload_calls p gs f.filePath ed p.apk c h3
              · exact uploadMapping_calls p gs f.mappingPath ed v c h4
            · rcases hok with ⟨u, hok⟩
              rw [uploadLoop_cons] at hok
              simp only [hu, hmp, if_neg hm] at hok
              exact ih.1 ⟨u, hok⟩ c h2
          · rw [uploadLoop_cons] at he ⊢
            simp only [hu, hmp, if_neg hm] at he ⊢
            rcases ih.2 e he with ⟨tr, htr, hcalls⟩
            refine ⟨(upload p gs f.filePath ed p.apk).2 ++ (uploadMapping p gs f.mappingPath ed v).2 ++
              tr, ?_, ?_⟩
            · simp [htr, List.append_assoc]
            · intro c hc
              rcases List.mem_append.1 hc with h1 | h2
              · rcases List.mem_append.1 h1 with h3 | h4
                · exact upload_calls p gs f.filePath ed p.apk c h3
                · exact uploadMapping_calls p gs f.mappingPath ed v c h4
              · exact hcalls c h2

theorem upload_ok_of_entry (p : publish) (gs : GService) (ed fp : String)
    {content : List Nat} {v : Int} (hc : p.fs.contents fp = some content)
    (hu : (if p.apk then gs.uploadApk else gs.uploadBundle) content p.packageName ed =
      Except.ok (v, fileSha256 content)) :
    (upload p gs fp ed p.apk).1 = Except.ok v := by
  unfold upload
  rw [hc]
  cases hb : p.apk <;> rw [hb] at hu <;>
    simp only [Bool.false_eq_true, if_false, if_true] at hu <;> simp [hu]

theorem uploadMapping_ok (p : publish) (gs : GService) (mp ed : String) (v : Int)
    {mc : List Nat} (h : p.fs.contents mp = some mc)
    (hu : gs.uploadProguardMapping mc p.packageName ed v = Except.ok ()) :
    (uploadMapping p gs mp ed v).1 = Except.ok () := by
  unfold uploadMapping
  rw [h]
  simp [hu]

theorem uploadLoop_ok_of_entries (p : publish) (gs : GService) (ed : String) :
    ∀ l, (∀ f ∈ l, entryOk p gs ed f) → (uploadLoop p gs ed l).1 = Except.ok () := by
  intro l
  induction l with
  | nil => intro _; rfl
  | cons f rest ih =>
    intro h
    obtain ⟨content, hc, v, hu, hmap⟩ := h f (List.mem_cons_self f rest)
    have hup := upload_ok_of_entry p gs ed f.filePath hc hu
    rw [uploadLoop_cons]
    simp only [hup]
    by_cases hm : f.mappingPath = ""
    · simp only [hm, if_true]
      exact ih (fun g hg => h g (List.mem_cons_of_mem f hg))
    · obtain ⟨mc, hmc, hum⟩ := hmap hm
      have hmo := uploadMapping_ok p gs f.mappingPath ed v hmc hum
      simp only [if_neg hm, hmo]
      exact ih (fun g hg => h g (List.mem_cons_of_mem f hg))

/-! ## Claim theorems -/

/-- C1: whenever `createEdit` succeeded and `UploadFiles` returns an error
(any later step failed: binary open, upload, hash mismatch, mapping
upload, validateEdit or commitEdit), the trace contains exactly one
`deleteEdit` call, and the whole outcome of the run (returned error and
trace alike) is independent of what the `deleteEdit` operation returns —
the original error propagates, never the deletion's outcome. -/
theorem C1_rollback_once (p : publish) (gs : GService) (editId err : String)
    (hcreate : gs.createEdit p.packageName = Except.ok editId)
    (herr : (UploadFiles p (some gs)).1 = Except.error err) :
    delCount (UploadFiles p (some gs)).2 = 1 ∧
    ∀ d, UploadFiles p (some { gs with deleteEdit := d }) = UploadFiles p (some gs) := by
  refine ⟨?_, fun d => UploadFiles_delfree p gs d⟩
  rcases hlp : (uploadLoop p gs editId p.files).1 with e | u
  · obtain ⟨tr, htr, hcalls⟩ := (uploadLoop_split p gs editId p.files).2 e hlp
    have hz := (counts_zero_of_uploads hcalls).1
    unfold delCount at hz ⊢
    simp only [UploadFiles, hcreate, hlp]
    rw [htr]
    simp [List.countP_cons, List.countP_append, isDeleteCall, hz]
  · have hcalls := (uploadLoop_split p gs editId p.files).1 ⟨u, hlp⟩
    have hz := (counts_zero_of_uploads hcalls).1
    unfold delCount at hz ⊢
    rcases hval : gs.validateEdit p.packageName editId with ev | uv
    · simp only [UploadFiles, hcreate, hlp, hval]
      simp [List.countP_cons, List.countP_append, isDeleteCall, hz]
    · rcases hcom : gs.commitEdit p.packageName editId with ec | uc
      · simp only [UploadFiles, hcreate, hlp, hval, hcom]
        simp [List.countP_cons, List.countP_append, isDeleteCall, hz]
      · simp only [UploadFiles, hcreate, hlp, hval, hcom] at herr
        cases uv
        cases uc
        simp at herr

/-- Witness for C1 at a concrete run: the binary file is missing, so the
upload step fails after edit creation. -/
theorem C1_rollback_once_witness :
    delCount (UploadFiles wPubGhost (some wGs)).2 = 1 ∧
    ∀ d, UploadFiles wPubGhost (some { wGs with deleteEdit := d }) =
      UploadFiles wPubGhost (some wGs) :=
  C1_rollback_once wPubGhost wGs "edit1" (openMsg "ghost.aab") rfl rfl

/-- C2: on a valid request (produced by `Publish`), a run in which every
step succeeds (edit creation, every per-entry upload with matching hash
and mapping upload, validation, commit) returns no error, and the trace
contains exactly one `createEdit`, one `validateEdit`, one `commitEdit`
and no `deleteEdit`. -/
theorem C2_success_counts (fs0 : Fs) (pn track af : String) (files : List binary)
    (apk vb : Bool) (p : publish) (gs : GService) (editId : String)
    (_hpub : Publish fs0 pn track af files apk vb = Except.ok p)
    (hcreate : gs.createEdit p.packageName = Except.ok editId)
    (hentries : ∀ f ∈ p.files, entryOk p gs editId f)
    (hval : gs.validateEdit p.packageName editId = Except.ok ())
    (hcom : gs.commitEdit p.packageName editId = Except.ok ()) :
    (UploadFiles p (some gs)).1 = Except.ok () ∧
    createCount (UploadFiles p (some gs)).2 = 1 ∧
    validateCount (UploadFiles p (some gs)).2 = 1 ∧
    commitCount (UploadFiles p (some gs)).2 = 1 ∧
    delCount (UploadFiles p (some gs)).2 = 0 := by
  have hlp := uploadLoop_ok_of_entries p gs editId p.files hentries
  have hcalls := (uploadLoop_split p gs editId p.files).1 ⟨(), hlp⟩
  obtain ⟨hd, hc, hv, hm⟩ := counts_zero_of_uploads hcalls
  unfold delCount createCount validateCount commitCount at *
  simp only [UploadFiles, hcreate, hlp, hval, hcom]
  refine ⟨trivial, ?_, ?_, ?_, ?_⟩ <;>
    simp [List.countP_cons, List.countP_append, isDeleteCall, isCreateCall, isValidateCall,
      isCommitCall, hd, hc, hv, hm]

/-- Witness for C2 at a concrete fully successful run. -/
theorem C2_success_counts_witness :
    (UploadFiles wPub (some wGs)).1 = Except.ok () ∧
    createCount (UploadFiles wPub (some wGs)).2 = 1 ∧
    validateCount (UploadFiles wPub (some wGs)).2 = 1 ∧
    commitCount (UploadFiles wPub (some wGs)).2 = 1 ∧
    delCount (UploadFiles wPub (some wGs)).2 = 0 :=
  C2_success_counts wFs "com.sample.app" "internal" "auth.json" [Binary "app.aab"]
    false false wPub wGs "edit1" rfl rfl
    (fun f hf => by
      have hfe : f = Binary "app.aab" := by simpa [wPub] using hf
      subst hfe
      exact ⟨[10, 20, 30], rfl, 7, rfl, fun hne => absurd rfl hne⟩)
    rfl rfl

/-- C6: if `createEdit` itself fails, `UploadFiles` returns that error and
the trace is just the one `createEdit` call: no upload, validate, commit
or deleteEdit is attempted. -/
theorem C6_create_fail_no_cleanup (p : publish) (gs : GService) (e : String)
    (h : gs.createEdit p.packageName = Except.error e) :
    UploadFiles p (some gs) = (Except.error e, [Call.createEdit p.packageName]) := by
  simp only [UploadFiles, h]

/-- Witness for C6 at a concrete run whose edit creation fails. -/
theorem C6_create_fail_no_cleanup_witness :
    UploadFiles wPub (some wGsCreateFail) =
      (Except.error "create failed", [Call.createEdit "com.sample.app"]) :=
  C6_create_fail_no_cleanup wPub wGsCreateFail "create failed" rfl

theorem upload_trace_eq (p : publish) (us : GService) (fp ed : String) (isApk : Bool)
    (content : List Nat) (hc : p.fs.contents fp = some content) :
    (upload p us fp ed isApk).2 =
      [if isApk then Call.uploadApk p.packageName ed content
       else Call.uploadBundle p.packageName ed content] := by
  unfold upload
  rw [hc]
  cases isApk <;>
    [rcases hu : us.uploadBundle content p.packageName ed with e | ⟨v, sha⟩;
     rcases hu : us.uploadApk content p.packageName ed with e | ⟨v, sha⟩] <;>
    simp [hu] <;> split <;> rfl

theorem uploadMapping_trace_eq (p : publish) (gs : GService) (mp ed : String) (v : Int)
    {mc : List Nat} (hmc : p.fs.contents mp = some mc) :
    (uploadMapping p gs mp ed v).2 = [Call.uploadProguardMapping p.packageName ed v] := by
  unfold uploadMapping
  rw [hmc]
  rcases hu : gs.uploadProguardMapping mc p.packageName ed v with e | u <;> simp [hu]

/-- C3: when the binary opens with content `content`, the locally computed
hash is `fileSha256 content` (SHA-256 of the full content) and the very
same bytes are transmitted in the upload call; the remote hash is compared
by string equality: on match the upload's version code is returned, on
mismatch the error carries both the local and the remote hash. -/
theorem C3_hash_check (p : publish) (us : GService) (fp ed : String) (isApk : Bool)
    (content : List Nat) (hc : p.fs.contents fp = some content) :
    ((upload p us fp ed isApk).2 =
      [if isApk then Call.uploadApk p.packageName ed content
       else Call.uploadBundle p.packageName ed content]) ∧
    (∀ v remote,
      (if isApk then us.uploadApk else us.uploadBundle) content p.packageName ed =
        Except.ok (v, remote) →
      (remote = fileSha256 content → (upload p us fp ed isApk).1 = Except.ok v) ∧
      (remote ≠ fileSha256 content →
        (upload p us fp ed isApk).1 =
          Except.error (integrityMsg (fileSha256 content) remote))) := by
  refine ⟨upload_trace_eq p us fp ed isApk content hc, fun v remote h => ⟨fun hr => ?_, fun hr => ?_⟩⟩ <;>
    unfold upload <;> rw [hc] <;>
    cases hb : isApk <;> rw [hb] at h <;>
      simp only [Bool.false_eq_true, if_false, if_true] at h <;>
      simp [h, hr]

set_option maxRecDepth 400000 in
/-- Witness for C3 at a concrete matching upload. -/
theorem C3_hash_check_witness :
    ((upload wPub wGs "app.aab" "edit1" false).2 =
      [Call.uploadBundle "com.sample.app" "edit1" [10, 20, 30]]) ∧
    (upload wPub wGs "app.aab" "edit1" false).1 = Except.ok 7 := by
  have h := C3_hash_check wPub wGs "app.aab" "edit1" false [10, 20, 30] rfl
  exact ⟨by simpa [wPub] using h.1, (h.2 7 (fileSha256 [10, 20, 30]) rfl).1 rfl⟩

/-- C5: for a binary entry whose file opens, exactly one binary-upload
call is made, `uploadApk` when the request's apk flag is set and
`uploadBundle` otherwise; when that upload succeeds with version code `v`,
an entry without mapping path adds no further call (the loop proceeds to
the rest), and an entry with a mapping path that opens leads to exactly
one `uploadProguardMapping` call carrying that same `v`. -/
theorem C5_dispatch_and_mapping (p : publish) (gs : GService) (ed : String) (f : binary)
    (rest : List binary) (content : List Nat) (v : Int)
    (hc : p.fs.contents f.filePath = some content) :
    ((upload p gs f.filePath ed p.apk).2 =
      [if p.apk then Call.uploadApk p.packageName ed content
       else Call.uploadBundle p.packageName ed content]) ∧
    ((upload p gs f.filePath ed p.apk).1 = Except.ok v →
      (f.mappingPath = "" →
        uploadLoop p gs ed (f :: rest) =
          ((uploadLoop p gs ed rest).1,
            (upload p gs f.filePath ed p.apk).2 ++ (uploadLoop p gs ed rest).2)) ∧
      (f.mappingPath ≠ "" → ∀ mc, p.fs.contents f.mappingPath = some mc →
        ∃ tail, (uploadLoop p gs ed (f :: rest)).2 =
          (upload p gs f.filePath ed p.apk).2 ++
            Call.uploadProguardMapping p.packageName ed v :: tail)) := by
  refine ⟨upload_trace_eq p gs f.filePath ed p.apk content hc, fun hok => ⟨fun hm => ?_, ?_⟩⟩
  · rw [uploadLoop_cons]
    simp only [hok, hm, if_true]
  · intro hm mc hmc
    rw [uploadLoop_cons]
    simp only [hok, if_neg hm]
    rcases hmp : (uploadMapping p gs f.mappingPath ed v).1 with e1 | u1 <;> simp only [hmp]
    · exact ⟨[Call.deleteEdit p.packageName ed], by
        rw [uploadMapping_trace_eq p gs f.mappingPath ed v hmc]
        simp [List.append_assoc]⟩
    · exact ⟨(uploadLoop p gs ed rest).2, by
        rw [uploadMapping_trace_eq p gs f.mappingPath ed v hmc]
        simp [List.append_assoc]⟩

set_option maxRecDepth 400000 in
/-- Witness for C5 at a concrete entry with a mapping file. -/
theorem C5_dispatch_and_mapping_witness :
    ((upload wPubMap wGs "app.aab" "edit1" false).2 =
      [Call.uploadBundle "com.sample.app" "edit1" [10, 20, 30]]) ∧
    ∃ tail, (uploadLoop wPubMap wGs "edit1" [BinaryWithMapping "app.aab" "map.txt"]).2 =
      (upload wPubMap wGs "app.aab" "edit1" false).2 ++
        Call.uploadProguardMapping "com.sample.app" "edit1" 7 :: tail := by
  have h := C5_dispatch_and_mapping wPubMap wGs "edit1" (BinaryWithMapping "app.aab" "map.txt")
    [] [10, 20, 30] 7 rfl
  constructor
  · simpa [wPubMap] using h.1
  · simpa [wPubMap, BinaryWithMapping] using ((h.2 (by rfl)).2 (by decide) [40, 50] rfl)

/-! ## Helper lemmas about validation -/

theorem Publish_reduce (fs0 : Fs) (pn track af : String) (files : List binary) (apk vb : Bool)
    (hauth : fileExits fs0 af = true) (hname : goTrimSpace pn ≠ "")
    (ht : normTrack track = TrackBeta ∨ normTrack track = TrackAlpha ∨
      normTrack track = TrackInternal) :
    Publish fs0 pn track af files apk vb =
      (if files.isEmpty then Except.error noFilesMsg
       else
         match checkFiles fs0 files with
         | some e => Except.error e
         | none =>
           Except.ok { packageName := goTrimSpace pn, track := normTrack track, authFile := af,
                       files := files, apk := apk, verbose := vb, fs := fs0 }) := by
  have h1 : ¬((!(fileExits fs0 af)) = true) := by simp [hauth]
  have htne : normTrack track ≠ "" := by rcases ht with h | h | h <;> rw [h] <;> decide
  have htcond : ¬(normTrack track ≠ TrackBeta ∧ normTrack track ≠ TrackAlpha ∧
      normTrack track ≠ TrackInternal) := by
    rcases ht with h | h | h <;> simp [h]
  simp only [Publish]
  rw [if_neg h1, if_neg hname, if_neg htne, if_neg htcond]

theorem checkFiles_none (fs0 : Fs) :
    ∀ l, (∀ f ∈ l, fileExits fs0 f.filePath = true ∧
        (f.mappingPath ≠ "" → fileExits fs0 f.mappingPath = true)) →
      checkFiles fs0 l = none := by
  intro l
  induction l with
  | nil => intro _; rfl
  | cons f rest ih =>
    intro h
    obtain ⟨hb, hmp⟩ := h f (List.mem_cons_self f rest)
    have hc1 : ¬((!(fileExits fs0 f.filePath)) = true) := by simp [hb]
    have hc2 : ¬(f.mappingPath ≠ "" ∧ (!(fileExits fs0 f.mappingPath)) = true) := by
      intro hcond
      have := hmp hcond.1
      simp [this] at hcond
    unfold checkFiles
    rw [if_neg hc1, if_neg hc2]
    exact ih (fun g hg => h g (List.mem_cons_of_mem f hg))

/-- C9: the authentication-file existence check runs first: whenever the
auth file is missing from the injected file system, `Publish` fails with
the error naming the auth file path, whatever the other arguments are. -/
theorem C9_auth_first (fs0 : Fs) (pn track af : String) (files : List binary) (apk vb : Bool)
    (h : fileExits fs0 af = false) :
    Publish fs0 pn track af files apk vb = Except.error (authMsg af) := by
  have h1 : (!(fileExits fs0 af)) = true := by simp [h]
  simp only [Publish]
  rw [if_pos h1]

/-- Witness for C9: the auth file is missing while the package name, the
track and the binaries list are all invalid too — the auth error wins. -/
theorem C9_auth_first_witness :
    Publish wFs "" "production" "missing.json" [] true true =
      Except.error (authMsg "missing.json") :=
  C9_auth_first wFs "" "production" "missing.json" [] true true rfl

/-- C10: validation lowercases and trims the track and trims the package
name; any input whose normalized track is internal, alpha or beta passes
the track check, and the stored request carries the trimmed package name
and the normalized track. -/
theorem C10_normalization (fs0 : Fs) (pn track af : String) (files : List binary) (apk vb : Bool)
    (hauth : fileExits fs0 af = true) (hname : goTrimSpace pn ≠ "")
    (ht : normTrack track = TrackBeta ∨ normTrack track = TrackAlpha ∨
      normTrack track = TrackInternal)
    (hne : files ≠ [])
    (hex : ∀ f ∈ files, fileExits fs0 f.filePath = true ∧
      (f.mappingPath ≠ "" → fileExits fs0 f.mappingPath = true)) :
    Publish fs0 pn track af files apk vb =
      Except.ok { packageName := goTrimSpace pn, track := normTrack track, authFile := af,
                  files := files, apk := apk, verbose := vb, fs := fs0 } := by
  have hemp : ¬(files.isEmpty = true) := by
    cases files with
    | nil => exact absurd rfl hne
    | cons a l => simp
  rw [Publish_reduce fs0 pn track af files apk vb hauth hname ht, if_neg hemp,
    checkFiles_none fs0 files hex]

/-- Witness for C10 at a concrete case-and-whitespace variant of the
internal track and a padded package name. -/
theorem C10_normalization_witness :
    Publish wFs "  com.sample.app " "  INTERNAL " "auth.json" [Binary "app.aab"] false false =
      Except.ok { packageName := "com.sample.app", track := "internal", authFile := "auth.json",
                  files := [Binary "app.aab"], apk := false, verbose := false, fs := wFs } := by
  have h := C10_normalization wFs "  com.sample.app " "  INTERNAL " "auth.json" [Binary "app.aab"]
    false false rfl (by decide) (Or.inr (Or.inr (by decide))) (by decide)
    (fun f hf => by
      have hfe : f = Binary "app.aab" := by simpa using hf
      subst hfe
      exact ⟨rfl, fun hne => absurd rfl hne⟩)
  rw [show goTrimSpace "  com.sample.app " = "com.sample.app" from by decide,
    show normTrack "  INTERNAL " = "internal" from by decide] at h
  exact h

theorem strData_append (s t : String) : (s ++ t).data = s.data ++ t.data := by
  cases s
  cases t
  rfl

theorem binMsg_head (q : String) : (binMsg q).data.head? = some 'b' := by
  unfold binMsg
  rw [strData_append, strData_append,
    show ("binary file \x27").data = 'b' :: "inary file \x27".data from rfl]
  rfl

theorem mapMsg_head (q : String) : (mapMsg q).data.head? = some 'm' := by
  unfold mapMsg
  rw [strData_append, strData_append,
    show ("mappings file \x27").data = 'm' :: "appings file \x27".data from rfl]
  rfl

theorem noFilesMsg_ne_binMsg (q : String) : noFilesMsg ≠ binMsg q := by
  intro h
  have hb := binMsg_head q
  rw [← h] at hb
  exact absurd hb (by decide)

theorem noFilesMsg_ne_mapMsg (q : String) : noFilesMsg ≠ mapMsg q := by
  intro h
  have hb := mapMsg_head q
  rw [← h] at hb
  exact absurd hb (by decide)

theorem checkFiles_missing (fs0 : Fs) :
    ∀ l, (∃ f ∈ l, fileExits fs0 f.filePath = false ∨
        (f.mappingPath ≠ "" ∧ fileExits fs0 f.mappingPath = false)) →
      ∃ f ∈ l,
        (fileExits fs0 f.filePath = false ∧ checkFiles fs0 l = some (binMsg f.filePath)) ∨
        (f.mappingPath ≠ "" ∧ fileExits fs0 f.mappingPath = false ∧
          checkFiles fs0 l = some (mapMsg f.mappingPath)) := by
  intro l
  induction l with
  | nil =>
    rintro ⟨f, hf, _⟩
    cases hf
  | cons f rest ih =>
    intro h
    by_cases hb : fileExits fs0 f.filePath = false
    · refine ⟨f, List.mem_cons_self f rest, Or.inl ⟨hb, ?_⟩⟩
      unfold checkFiles
      rw [if_pos (by simp [hb])]
    · have hb' : fileExits fs0 f.filePath = true := by
        cases hfe : fileExits fs0 f.filePath
        · exact absurd hfe hb
        · rfl
      by_cases hm : f.mappingPath ≠ "" ∧ fileExits fs0 f.mappingPath = false
      · refine ⟨f, List.mem_cons_self f rest, Or.inr ⟨hm.1, hm.2, ?_⟩⟩
        unfold checkFiles
        rw [if_neg (by simp [hb']), if_pos (by simp [hm.1, hm.2])]
      · have hrest : ∃ g ∈ rest, fileExits fs0 g.filePath = false ∨
            (g.mappingPath ≠ "" ∧ fileExits fs0 g.mappingPath = false) := by
          rcases h with ⟨g, hg, hcase⟩
          rcases List.mem_cons.1 hg with hgf | hgr
          · subst hgf
            rcases hcase with h1 | h2
            · exact absurd h1 hb
            · exact absurd h2 hm
          · exact ⟨g, hgr, hcase⟩
        have hc1 : ¬((!(fileExits fs0 f.filePath)) = true) := by simp [hb']
        have hc2 : ¬(f.mappingPath ≠ "" ∧ (!(fileExits fs0 f.mappingPath)) = true) := by
          intro hcond
          exact hm ⟨hcond.1, by simpa using hcond.2⟩
        have hstep : checkFiles fs0 (f :: rest) = checkFiles fs0 rest := by
          conv_lhs => unfold checkFiles
          rw [if_neg hc1, if_neg hc2]
        obtain ⟨g, hg, hcase⟩ := ih hrest
        refine ⟨g, List.mem_cons_of_mem f hg, ?_⟩
        rcases hcase with ⟨h1, h2⟩ | ⟨h1, h2, h3⟩
        · exact Or.inl ⟨h1, by rw [hstep]; exact h2⟩
        · exact Or.inr ⟨h1, h2, by rw [hstep]; exact h3⟩

/-- C7: with the earlier validation stages passing (auth file present,
non-empty trimmed package name, supported normalized track), a binaries
list containing an entry whose binary file is missing, or whose specified
mapping file is missing, makes `Publish` fail with the error naming that
missing path; and when every listed binary and every specified mapping
exists, no missing-binary or missing-mapping error is produced. -/
theorem C7_missing_files (fs0 : Fs) (pn track af : String) (files : List binary) (apk vb : Bool)
    (hauth : fileExits fs0 af = true) (hname : goTrimSpace pn ≠ "")
    (ht : normTrack track = TrackBeta ∨ normTrack track = TrackAlpha ∨
      normTrack track = TrackInternal) :
    ((∃ f ∈ files, fileExits fs0 f.filePath = false ∨
        (f.mappingPath ≠ "" ∧ fileExits fs0 f.mappingPath = false)) →
      ∃ f ∈ files,
        (fileExits fs0 f.filePath = false ∧
          Publish fs0 pn track af files apk vb = Except.error (binMsg f.filePath)) ∨
        (f.mappingPath ≠ "" ∧ fileExits fs0 f.mappingPath = false ∧
          Publish fs0 pn track af files apk vb = Except.error (mapMsg f.mappingPath))) ∧
    ((∀ f ∈ files, fileExits fs0 f.filePath = true ∧
        (f.mappingPath ≠ "" → fileExits fs0 f.mappingPath = true)) →
      ∀ q, Publish fs0 pn track af files apk vb ≠ Except.error (binMsg q) ∧
        Publish fs0 pn track af files apk vb ≠ Except.error (mapMsg q)) := by
  constructor
  · intro hmiss
    have hne : ¬(files.isEmpty = true) := by
      rcases hmiss with ⟨f, hf, _⟩
      cases files
      · cases hf
      · simp
    obtain ⟨f, hf, hcase⟩ := checkFiles_missing fs0 files hmiss
    refine ⟨f, hf, ?_⟩
    rcases hcase with ⟨h1, h2⟩ | ⟨h1, h2, h3⟩
    · exact Or.inl ⟨h1, by
        rw [Publish_reduce fs0 pn track af files apk vb hauth hname ht, if_neg hne, h2]⟩
    · exact Or.inr ⟨h1, h2, by
        rw [Publish_reduce fs0 pn track af files apk vb hauth hname ht, if_neg hne, h3]⟩
  · intro hall q
    by_cases hfe : files = []
    · subst hfe
      have hP : Publish fs0 pn track af [] apk vb = Except.error noFilesMsg := by
        rw [Publish_reduce fs0 pn track af [] apk vb hauth hname ht]
        rfl
      rw [hP]
      constructor
      · intro he
        injection he with hmsg
        exact noFilesMsg_ne_binMsg q hmsg
      · intro he
        injection he with hmsg
        exact noFilesMsg_ne_mapMsg q hmsg
    · have hne : ¬(files.isEmpty = true) := by
        cases files with
        | nil => exact absurd rfl hfe
        | cons a l => simp
      have hP := Publish_reduce fs0 pn track af files apk vb hauth hname ht
      rw [if_neg hne, checkFiles_none fs0 files hall] at hP
      rw [hP]
      exact ⟨fun he => Except.noConfusion he, fun he => Except.noConfusion he⟩

/-- Witness for C7: a list with one missing binary fails naming it; the
well-formed list from the fixtures produces no missing-path error. -/
theorem C7_missing_files_witness :
    (∃ f ∈ [Binary "ghost.aab"],
      (fileExits wFs f.filePath = false ∧
        Publish wFs "com.sample.app" "internal" "auth.json" [Binary "ghost.aab"] false false =
          Except.error (binMsg f.filePath)) ∨
      (f.mappingPath ≠ "" ∧ fileExits wFs f.mappingPath = false ∧
        Publish wFs "com.sample.app" "internal" "auth.json" [Binary "ghost.aab"] false false =
          Except.error (mapMsg f.mappingPath))) ∧
    (Publish wFs "com.sample.app" "internal" "auth.json" [BinaryWithMapping "app.aab" "map.txt"]
        false false ≠ Except.error (binMsg "ghost.aab")) := by
  constructor
  · exact (C7_missing_files wFs "com.sample.app" "internal" "auth.json" [Binary "ghost.aab"]
      false false rfl (by decide) (Or.inr (Or.inr (by decide)))).1
      ⟨Binary "ghost.aab", by simp, Or.inl rfl⟩
  · exact ((C7_missing_files wFs "com.sample.app" "internal" "auth.json"
      [BinaryWithMapping "app.aab" "map.txt"] false false rfl (by decide)
      (Or.inr (Or.inr (by decide)))).2
      (fun f hf => by
        have hfe : f = BinaryWithMapping "app.aab" "map.txt" := by simpa using hf
        subst hfe
        exact ⟨rfl, fun _ => rfl⟩)
      "ghost.aab").1

/-- C4 (amended): every request whose normalized (lowercased, trimmed)
track is none of beta, alpha, internal is rejected by `Publish`; and when
the earlier checks pass (auth file present, non-empty trimmed package
name) and the normalized track is non-empty, the error is exactly the
unsupported-track message, which names the rejected value and the allowed
set.  (A whitespace-only track is also rejected, but with the
track-required message, which names neither — see the counterexample.) -/
theorem C4_amended_unsupported_track :
    (∀ (fs0 : Fs) (pn track af : String) (files : List binary) (apk vb : Bool) (p : publish),
      normTrack track ≠ TrackBeta → normTrack track ≠ TrackAlpha →
      normTrack track ≠ TrackInternal →
      Publish fs0 pn track af files apk vb ≠ Except.ok p) ∧
    (∀ (fs0 : Fs) (pn track af : String) (files : List binary) (apk vb : Bool),
      fileExits fs0 af = true → goTrimSpace pn ≠ "" → normTrack track ≠ "" →
      normTrack track ≠ TrackBeta → normTrack track ≠ TrackAlpha →
      normTrack track ≠ TrackInternal →
      Publish fs0 pn track af files apk vb = Except.error (trackMsg (normTrack track))) := by
  constructor
  · intro fs0 pn track af files apk vb p hb ha hi hok
    simp only [Publish] at hok
    split at hok
    · exact Except.noConfusion hok
    · split at hok
      · exact Except.noConfusion hok
      · split at hok
        · exact Except.noConfusion hok
        · split at hok
          · exact Except.noConfusion hok
          · rename_i hcond
            exact absurd ⟨hb, ha, hi⟩ hcond
  · intro fs0 pn track af files apk vb hauth hname htne hb ha hi
    have h1 : ¬((!(fileExits fs0 af)) = true) := by simp [hauth]
    simp only [Publish]
    rw [if_neg h1, if_neg hname, if_neg htne, if_pos ⟨hb, ha, hi⟩]

/-- Counterexample to C4 as stated: a whitespace-only track is not one of
internal, alpha, beta, and `Publish` does reject it, but with the
track-required message, which names neither the rejected value nor any
member of the allowed set (it does not even mention alpha or beta). -/
theorem C4_counterexample_whitespace_track :
    Publish wFs "com.sample.app" "   " "auth.json" [Binary "app.aab"] false false =
      Except.error trackReqMsg ∧
    strContains trackReqMsg TrackAlpha = false ∧
    strContains trackReqMsg TrackBeta = false ∧
    trackReqMsg ≠ trackMsg (normTrack "   ") := by
  exact ⟨rfl, by decide, by decide, by decide⟩

/-- Witness for the amended C4: the production track is rejected with the
unsupported-track message, and can never validate. -/
theorem C4_amended_unsupported_track_witness :
    Publish wFs "com.sample.app" "production" "auth.json" [Binary "app.aab"] false false =
      Except.error (trackMsg "production") ∧
    Publish wFs "com.sample.app" "production" "auth.json" [Binary "app.aab"] false false ≠
      Except.ok wPub := by
  constructor
  · have h2 := C4_amended_unsupported_track.2 wFs "com.sample.app" "production" "auth.json"
      [Binary "app.aab"] false false rfl (by decide) (by decide) (by decide) (by decide)
      (by decide)
    rw [show normTrack "production" = "production" from by decide] at h2
    exact h2
  · exact C4_amended_unsupported_track.1 wFs "com.sample.app" "production" "auth.json"
      [Binary "app.aab"] false false wPub (by decide) (by decide) (by decide)

/-! ## Shape lemmas for SHA-256 -/

theorem round1_length (ki wi : Nat) (st : List Nat) : (round1 ki wi st).length = st.length := by
  unfold round1
  split <;> simp

theorem rounds_length : ∀ (fuel i : Nat) (w st : List Nat),
    (rounds fuel i w st).length = st.length := by
  intro fuel
  induction fuel with
  | zero => intro i w st; rfl
  | succ f ih =>
    intro i w st
    simp only [rounds]
    rw [ih, round1_length]

theorem compress_length (h block : List Nat) : (compress h block).length = h.length := by
  unfold compress
  rw [List.length_zipWith, rounds_length, Nat.min_self]

theorem sha256Blocks_length : ∀ (fuel : Nat) (h l : List Nat),
    (sha256Blocks fuel h l).length = h.length := by
  intro fuel
  induction fuel with
  | zero => intro h l; rfl
  | succ f ih =>
    intro h l
    simp only [sha256Blocks]
    split
    · rfl
    · rw [ih, compress_length]

theorem wordsToBytes_length : ∀ ws : List Nat, (wordsToBytes ws).length = 4 * ws.length := by
  intro ws
  induction ws with
  | nil => rfl
  | cons w rest ih =>
    simp only [wordsToBytes, List.length_cons, ih]
    ring

theorem sha256_length (msg : List Nat) : (sha256 msg).length = 32 := by
  unfold sha256
  rw [wordsToBytes_length, sha256Blocks_length]
  rfl

theorem hexEncodeList_length : ∀ bs : List Nat, (hexEncodeList bs).length = 2 * bs.length := by
  intro bs
  induction bs with
  | nil => rfl
  | cons b rest ih =>
    simp only [hexEncodeList, List.length_cons, ih]
    ring

theorem fileSha256_length (bs : List Nat) : (fileSha256 bs).length = 64 := by
  show (hexEncodeList (sha256 bs)).length = 64
  rw [hexEncodeList_length, sha256_length]

theorem hexChar_memHex : ∀ d, d < 16 → hexChar d ∈ ("0123456789abcdef").data := by decide

theorem wordsToBytes_lt : ∀ ws, ∀ b ∈ wordsToBytes ws, b < 256 := by
  intro ws
  induction ws with
  | nil => intro b hb; cases hb
  | cons w rest ih =>
    intro b hb
    simp only [wordsToBytes, List.mem_cons] at hb
    rcases hb with rfl | rfl | rfl | rfl | hb
    · exact Nat.mod_lt _ (by norm_num)
    · exact Nat.mod_lt _ (by norm_num)
    · exact Nat.mod_lt _ (by norm_num)
    · exact Nat.mod_lt _ (by norm_num)
    · exact ih b hb

theorem hexEncodeList_memHex : ∀ bs, (∀ b ∈ bs, b < 256) →
    ∀ c ∈ hexEncodeList bs, c ∈ ("0123456789abcdef").data := by
  intro bs
  induction bs with
  | nil => intro _ c hc; cases hc
  | cons b rest ih =>
    intro hlt c hc
    simp only [hexEncodeList, List.mem_cons] at hc
    rcases hc with rfl | rfl | hc
    · have hb := hlt b (List.mem_cons_self b rest)
      exact hexChar_memHex (b / 16) (by omega)
    · exact hexChar_memHex (b % 16) (Nat.mod_lt _ (by norm_num))
    · exact ih (fun x hx => hlt x (List.mem_cons_of_mem b hx)) c hc

set_option maxRecDepth 400000 in
/-- C8: `fileSha256` hashes the full byte content with SHA-256 and hex
encodes the digest in lowercase: the digest of the bytes of
"testinputdata" is the expected test vector, and for every input the
output is 64 characters, all drawn from "0123456789abcdef". -/
theorem C8_sha256_vector :
    fileSha256 (stringBytes "testinputdata") =
      "b5a7e3884f760b197b8e9df98bab2d35333943bc7439e0bba00ed87213a44f43" ∧
    ∀ bs : List Nat, (fileSha256 bs).length = 64 ∧
      ∀ c ∈ (fileSha256 bs).data, c ∈ ("0123456789abcdef").data := by
  refine ⟨by decide, fun bs => ⟨fileSha256_length bs, fun c hc => ?_⟩⟩
  have hlt := wordsToBytes_lt (sha256Blocks (padMessage bs).length sha256Init (padMessage bs))
  exact hexEncodeList_memHex (sha256 bs) (fun b hb => hlt b hb) c hc

set_option maxRecDepth 400000 in
/-- Witness for C8 instantiating the universally quantified part at the
test vector input. -/
theorem C8_sha256_vector_witness :
    (fileSha256 (stringBytes "testinputdata")).length = 64 ∧
      'b' ∈ ("0123456789abcdef").data :=
  ⟨(C8_sha256_vector.2 (stringBytes "testinputdata")).1,
    (C8_sha256_vector.2 (stringBytes "testinputdata")).2 'b' (by decide)⟩
